import Mathlib

/-!
Verification of the coordinate-to-pixel lookup pipeline of
`tiff_info_extractor_from_coordinates.py`.

The script's core (lines 145-183) is, per input coordinate batch:
  * build a pyproj `Transformer.from_crs("EPSG:4326", src.crs, always_xy=True)`;
  * for each `(lat, lon)` pair, inside a `try`:
      `x, y = transformer.transform(lon, lat)`   (axis order: x = longitude),
      `row, col = src.index(x, y)`               (inverse affine + floor),
      `val = src.read(1)[row, col]`              (numpy indexing: negative
                                                  indices wrap, out-of-range
                                                  raises IndexError),
    appending a record with the value, and on any exception appending the
    same record with value `None`;
  * `bounds4326 = transform_bounds(crs, "EPSG:4326", *bounds)` wrapped in
    `try/except` that leaves `bounds4326 = None` (lines 60-63);
  * `df_result.to_csv(index=False)` over records whose keys are
    `latitude (EPSG:4326)`, `longitude (EPSG:4326)`, `value` (lines 155-183).

Numbers are modelled as rationals.  The external library calls (pyproj
transform, rasterio transform_bounds) are modelled as explicit function
parameters returning `Except`, whose `error` case stands for any Python
exception raised inside the corresponding `try` block (including the
downstream failures caused by non-finite transformer output).
-/

/-- A geographic input point, `(lat, lon)` in the order the script's loop
destructures it (`for lat, lon in coords`). -/
structure GeoPoint where
  lat : ℚ
  lon : ℚ
deriving DecidableEq, Repr

/-- Error raised inside the per-point `try` block: a pyproj projection
failure, or the numeric failure that follows a non-finite transformer
output when `src.index` is applied to it. -/
inductive ProjError where
  | projError
deriving DecidableEq, Repr

/-- The six affine coefficients of a rasterio transform: pixel
`(col, row)` maps to native-CRS `(x, y)` by `x = a*col + b*row + c`,
`y = d*col + e*row + f`. -/
structure Affine where
  a : ℚ
  b : ℚ
  c : ℚ
  d : ℚ
  e : ℚ
  f : ℚ
deriving DecidableEq, Repr

/-- Determinant of the linear part of an affine transform. -/
def Affine.det (t : Affine) : ℚ := t.a * t.e - t.b * t.d

/-- Forward affine application: pixel `(col, row)` to native `(x, y)`. -/
def Affine.xy (t : Affine) (col row : ℚ) : ℚ × ℚ :=
  (t.a * col + t.b * row + t.c, t.d * col + t.e * row + t.f)

/-- `src.index(x, y)` (rasterio): apply the inverse affine transform to a
native-CRS point and floor the fractional row/column to integers.
Returns `(row, col)`. -/
def srcIndex (t : Affine) (x y : ℚ) : ℤ × ℤ :=
  let colF : ℚ := (t.e * (x - t.c) - t.b * (y - t.f)) / t.det
  let rowF : ℚ := (t.a * (y - t.f) - t.d * (x - t.c)) / t.det
  (⌊rowF⌋, ⌊colF⌋)

/-- The in-memory raster: one band (`src.read(1)`, row-major), its shape
(`band.shape`), and the pixel-to-native affine transform. -/
structure RasterGrid where
  band : List (List ℚ)
  height : ℕ
  width : ℕ
  transform : Affine
deriving DecidableEq, Repr

/-- `band[row, col]` with numpy's integer-indexing semantics: an index in
`[-n, n)` is accepted, a negative one wrapping to `n + i` (equivalently
`i mod n`); anything else raises `IndexError`, modelled as `none`. -/
def numpyGet (g : RasterGrid) (row col : ℤ) : Option ℚ :=
  if -(g.height : ℤ) ≤ row ∧ row < (g.height : ℤ) ∧
     -(g.width : ℤ) ≤ col ∧ col < (g.width : ℤ) then
    (g.band.get? (row.emod (g.height : ℤ)).toNat).bind
      (fun r => r.get? (col.emod (g.width : ℤ)).toNat)
  else
    none

/-- The body of the per-point `try` block (lines 151-154): transform
`(lon, lat)` with the `always_xy` transformer, derive `(row, col)` via
`src.index`, read the band.  `none` is the value recorded by the
`except` branch (line 164). -/
def processPoint (g : RasterGrid) (tr : ℚ → ℚ → Except ProjError (ℚ × ℚ))
    (p : GeoPoint) : Option ℚ :=
  match tr p.lon p.lat with
  | Except.error _ => none
  | Except.ok (x, y) =>
      let rc := srcIndex g.transform x y
      numpyGet g rc.1 rc.2

/-- One entry of `results` (lines 155-165): the dict with keys
`latitude (EPSG:4326)`, `longitude (EPSG:4326)`, `value`. -/
structure SampleRecord where
  latitude : ℚ
  longitude : ℚ
  value : Option ℚ
deriving DecidableEq, Repr

/-- The extraction loop (lines 150-165): one record per coordinate, in
input order; any exception for a point yields `value = none` for that
point only.  Total by construction: no exception escapes the loop. -/
def extract (g : RasterGrid) (tr : ℚ → ℚ → Except ProjError (ℚ × ℚ))
    (coords : List GeoPoint) : List SampleRecord :=
  coords.map (fun p => ⟨p.lat, p.lon, processPoint g tr p⟩)

/-- C1: a per-point failure is recorded as `none` and does not abort the
rest of the batch: extracting `pre ++ p :: post` where the transformer
fails on `p` yields exactly the extraction of `pre`, then the record for
`p` with an absent value, then the extraction of `post`.  `extract`
returns a plain list, so no exception passes the batch boundary. -/
theorem extract_isolates_failure (g : RasterGrid)
    (tr : ℚ → ℚ → Except ProjError (ℚ × ℚ))
    (pre post : List GeoPoint) (p : GeoPoint) (err : ProjError)
    (hfail : tr p.lon p.lat = Except.error err) :
    extract g tr (pre ++ p :: post) =
      extract g tr pre ++ ⟨p.lat, p.lon, none⟩ :: extract g tr post := by
  unfold extract
  rw [List.map_append, List.map_cons]
  congr 2
  unfold processPoint
  rw [hfail]

/-- Concrete raster used by the closed witnesses: a 2 by 2 grid with the
north-up affine `x = col`, `y = -row`. -/
def gridW : RasterGrid :=
  { band := [[10, 20], [30, 40]]
    height := 2
    width := 2
    transform := { a := 1, b := 0, c := 0, d := 0, e := -1, f := 0 } }

/-- Transformer for the C1 witness: fails (as pyproj's pipeline does, via
the non-finite output fed to `src.index`) for a latitude above 90,
identity otherwise. -/
def trLatDomain : ℚ → ℚ → Except ProjError (ℚ × ℚ) :=
  fun lon lat => if 90 < lat then Except.error ProjError.projError
                 else Except.ok (lon, lat)

/-- C1 witness: the single-point batch `[(91.0, 0.0)]` (latitude outside
the valid range) produces exactly one record, absent, and no failure. -/
theorem extract_isolates_failure_witness :
    trLatDomain (0 : ℚ) 91 = Except.error ProjError.projError ∧
    extract gridW trLatDomain [⟨91, 0⟩] = [⟨91, 0, none⟩] := by
  refine ⟨by norm_num [trLatDomain], ?_⟩
  have h := extract_isolates_failure gridW trLatDomain [] [] ⟨91, 0⟩
    ProjError.projError (by norm_num [trLatDomain])
  simpa using h

/-- C2: `extract` is one record per input point, order preserved: the
output has the input's length and the record at every index `i` carries
the `i`-th input point's latitude and longitude (its value being the
per-point lookup of exactly that point). -/
theorem extract_length_order (g : RasterGrid)
    (tr : ℚ → ℚ → Except ProjError (ℚ × ℚ)) (coords : List GeoPoint) :
    (extract g tr coords).length = coords.length ∧
    ∀ i (h : i < coords.length),
      (extract g tr coords).get ⟨i, by simpa [extract] using h⟩ =
        ⟨(coords.get ⟨i, h⟩).lat, (coords.get ⟨i, h⟩).lon,
          processPoint g tr (coords.get ⟨i, h⟩)⟩ := by
  constructor
  · simp [extract]
  · intro i h
    simp [extract]

/-- C2 witness: a two-point batch over the concrete raster, checked at
both indices. -/
theorem extract_length_order_witness :
    (extract gridW trLatDomain [⟨91, 0⟩, ⟨1, 1⟩]).length = 2 ∧
    (extract gridW trLatDomain [⟨91, 0⟩, ⟨1, 1⟩]).get ⟨0, by decide⟩ =
      ⟨91, 0, processPoint gridW trLatDomain ⟨91, 0⟩⟩ ∧
    (extract gridW trLatDomain [⟨91, 0⟩, ⟨1, 1⟩]).get ⟨1, by decide⟩ =
      ⟨1, 1, processPoint gridW trLatDomain ⟨1, 1⟩⟩ := by
  refine ⟨(extract_length_order gridW trLatDomain [⟨91, 0⟩, ⟨1, 1⟩]).1, ?_, ?_⟩
  · exact (extract_length_order gridW trLatDomain [⟨91, 0⟩, ⟨1, 1⟩]).2 0 (by decide)
  · exact (extract_length_order gridW trLatDomain [⟨91, 0⟩, ⟨1, 1⟩]).2 1 (by decide)

/-- Identity transformer: raster CRS equal to the input CRS, every point
in domain. -/
def trId : ℚ → ℚ → Except ProjError (ℚ × ℚ) :=
  fun lon lat => Except.ok (lon, lat)

/-- C3 (code evaluated at the failing input): the point `(lat, lon) =
(1, 0)` reprojects (identically) to `(x, y) = (0, 1)`, whose derived
index `(row, col) = (-1, 0)` lies outside `[0, height) x [0, width)`;
the script nevertheless records the PRESENT value `30`, read from the
bottom row of `gridW` by numpy's negative-index wrap-around, where the
spec requires an absent record. -/
theorem extract_unchecked_negative_row :
    srcIndex gridW.transform 0 1 = (-1, 0) ∧
    ¬ ((0 : ℤ) ≤ -1) ∧
    extract gridW trId [⟨1, 0⟩] = [⟨1, 0, some 30⟩] ∧
    (gridW.band.get? 1).bind (fun r => r.get? 0) = some 30 := by
  have hidx : srcIndex gridW.transform 0 1 = (-1, 0) := by
    norm_num [srcIndex, gridW, Affine.det, Prod.ext_iff]
  refine ⟨hidx, by decide, ?_, by decide⟩
  have hpp : processPoint gridW trId ⟨1, 0⟩ =
      numpyGet gridW (srcIndex gridW.transform 0 1).1
        (srcIndex gridW.transform 0 1).2 := rfl
  show [(⟨1, 0, processPoint gridW trId ⟨1, 0⟩⟩ : SampleRecord)] = _
  rw [hpp, hidx]
  decide

/-- A 2 by 3 raster for the wrap-around claim, same north-up affine. -/
def grid9 : RasterGrid :=
  { band := [[1, 2, 3], [4, 5, 6]]
    height := 2
    width := 3
    transform := { a := 1, b := 0, c := 0, d := 0, e := -1, f := 0 } }

/-- C9: a point just outside the left edge — derived `(row, col) =
(0, -1)`, column negative but at least `-width` — yields a PRESENT
value, and that value is the one stored at the opposite (rightmost)
column of the row, `band[0][width - 1] = 3`: numpy negative-index
wrap-around instead of an absent record. -/
theorem extract_wraps_negative_col :
    srcIndex grid9.transform (-1) 0 = (0, -1) ∧
    (-1 : ℤ) < 0 ∧ -((grid9.width : ℤ)) ≤ -1 ∧
    extract grid9 trId [⟨0, -1⟩] = [⟨0, -1, some 3⟩] ∧
    (grid9.band.get? 0).bind (fun r => r.get? (grid9.width - 1)) = some 3 := by
  have hidx : srcIndex grid9.transform (-1) 0 = (0, -1) := by
    norm_num [srcIndex, grid9, Affine.det, Prod.ext_iff]
  refine ⟨hidx, by decide, by decide, ?_, by decide⟩
  have hpp : processPoint grid9 trId ⟨0, -1⟩ =
      numpyGet grid9 (srcIndex grid9.transform (-1) 0).1
        (srcIndex grid9.transform (-1) 0).2 := rfl
  show [(⟨0, -1, processPoint grid9 trId ⟨0, -1⟩⟩ : SampleRecord)] = _
  rw [hpp, hidx]
  decide

/-- C6: the per-point pipeline consults the forward transformation at
exactly `(longitude, latitude)` — the `always_xy=True` convention with
x the longitude-like axis — so its result depends only on the
transformer's value at that argument pair: two transformers agreeing at
`(p.lon, p.lat)` give identical lookups for `p`. -/
theorem transform_consulted_at_lon_lat (g : RasterGrid)
    (tr1 tr2 : ℚ → ℚ → Except ProjError (ℚ × ℚ)) (p : GeoPoint)
    (hagree : tr1 p.lon p.lat = tr2 p.lon p.lat) :
    processPoint g tr1 p = processPoint g tr2 p := by
  unfold processPoint
  rw [hagree]

/-- Transformer for the C6 witness: agrees with the identity transformer
only at the argument pair `(20, 10)` (x = longitude 20, y = latitude
10); everywhere else, in particular at the transposed pair `(10, 20)`,
it answers differently. -/
def trC6 : ℚ → ℚ → Except ProjError (ℚ × ℚ) :=
  fun x y => if x = 20 ∧ y = 10 then Except.ok (x, y) else Except.ok (0, 0)

/-- C6 witness: for the point with latitude 10 and longitude 20, the
identity transformer and `trC6` agree at `(lon, lat) = (20, 10)` (and
nowhere else relevant), so the pipeline gives both the same record. -/
theorem transform_consulted_at_lon_lat_witness :
    trId (20 : ℚ) 10 = trC6 (20 : ℚ) 10 ∧
    trId (10 : ℚ) 20 ≠ trC6 (10 : ℚ) 20 ∧
    processPoint gridW trId ⟨10, 20⟩ = processPoint gridW trC6 ⟨10, 20⟩ := by
  refine ⟨?_, ?_, ?_⟩
  · norm_num [trId, trC6]
  · norm_num [trId, trC6]
  · exact transform_consulted_at_lon_lat gridW trId trC6 ⟨10, 20⟩
      (by norm_num [trId, trC6])

/-- A native-CRS bounding rectangle, in rasterio's field order
`(left, bottom, right, top)`. -/
structure BoundingBox where
  left : ℚ
  bottom : ℚ
  right : ℚ
  top : ℚ
deriving DecidableEq, Repr

/-- Lines 55 and 60-63: the program state after the bounds computation
is the native rectangle `bounds` (always available from the raster)
together with `bounds4326`, which is the reprojected rectangle when
`transform_bounds` succeeds and `None` — the flag that reprojection was
skipped — when it raises.  The bare `except Exception` makes this total:
it never raises to the caller. -/
def boundsInfo (native : BoundingBox)
    (tb : BoundingBox → Except ProjError BoundingBox) :
    BoundingBox × Option BoundingBox :=
  (native,
    match tb native with
    | Except.ok r => some r
    | Except.error _ => none)

/-- C7: the bounds operation never raises (it is a total function into a
plain pair) and always returns the native rectangle; when reprojection
fails it pairs the native rectangle with `none`, the skipped-reprojection
flag, and when reprojection succeeds it pairs it with the reprojected
rectangle. -/
theorem boundsInfo_never_raises (native : BoundingBox)
    (tb : BoundingBox → Except ProjError BoundingBox) :
    (boundsInfo native tb).1 = native ∧
    (∀ e, tb native = Except.error e → (boundsInfo native tb).2 = none) ∧
    (∀ r, tb native = Except.ok r → (boundsInfo native tb).2 = some r) := by
  refine ⟨rfl, ?_, ?_⟩
  · intro e he
    simp [boundsInfo, he]
  · intro r hr
    simp [boundsInfo, hr]

/-- Reprojection stub for the C7 witness: always fails. -/
def tbFail : BoundingBox → Except ProjError BoundingBox :=
  fun _ => Except.error ProjError.projError

/-- C7 witness: with an always-failing reprojection, bounds of the unit
square still come back as the native rectangle plus the skipped flag. -/
theorem boundsInfo_never_raises_witness :
    boundsInfo ⟨0, 0, 1, 1⟩ tbFail = (⟨0, 0, 1, 1⟩, none) := by
  have h := boundsInfo_never_raises ⟨0, 0, 1, 1⟩ tbFail
  have h2 := h.2.1 ProjError.projError rfl
  exact Prod.ext h.1 h2

/-- Error of the grid-level argmax when the grid holds no finite value. -/
inductive AllMissingError where
  | allMissing
deriving DecidableEq, Repr

/-- A finite grid cell: `(row, col, value)`. -/
abbrev Cell : Type := ℕ × ℕ × ℚ

/-- Modelled from the spec: the finite (non-missing / non-NaN) cells of
one band row, scanned left to right, starting at row index `r0` and
column index `c0`.  A `none` cell stands for a non-finite sample.  (The
grid-level argmax — the spec's "inverse pipeline" — lives in the
repository's sibling pages, which are absent from `src/`.) -/
def finiteRow (r0 : ℕ) (c0 : ℕ) : List (Option ℚ) → List Cell
  | [] => []
  | none :: vs => finiteRow r0 (c0 + 1) vs
  | some v :: vs => (r0, c0, v) :: finiteRow r0 (c0 + 1) vs

/-- Modelled from the spec: all finite cells of the rows from row index
`r0` on, in row-major order (row first, then column). -/
def finiteCellsFrom (r0 : ℕ) : List (List (Option ℚ)) → List Cell
  | [] => []
  | row :: rows => finiteRow r0 0 row ++ finiteCellsFrom (r0 + 1) rows

/-- Modelled from the spec: the finite cells of the whole band in
row-major scan order. -/
def finiteCells (band : List (List (Option ℚ))) : List Cell :=
  finiteCellsFrom 0 band

/-- One comparison step of the scan: keep the current best on ties and
on strictly smaller candidates, move only on a strictly larger value. -/
def pmStep (best y : Cell) : Cell :=
  if best.2.2 < y.2.2 then y else best

/-- Fold of `pmStep` over the remaining cells, seeded with the first. -/
def pickMax (x : Cell) (ys : List Cell) : Cell :=
  ys.foldl pmStep x

/-- Modelled from the spec: `argmax` over the cells — the first (in
row-major order) finite cell carrying the maximum finite value, or
`AllMissingError` when no finite cell exists. -/
def argmaxCell (band : List (List (Option ℚ))) :
    Except AllMissingError Cell :=
  match finiteCells band with
  | [] => Except.error AllMissingError.allMissing
  | x :: xs => Except.ok (pickMax x xs)

/-- The spec's ExtremumResult: winning value, its cell, and the cell's
native-CRS point after the forward affine transform and the display
reprojection. -/
structure ExtremumResult where
  value : ℚ
  row : ℕ
  col : ℕ
  x : ℚ
  y : ℚ
deriving DecidableEq, Repr

/-- Modelled from the spec: the full argmax pipeline — scan the band,
convert the winning pixel cell through the forward affine transform,
reproject to the display reference system `disp`. -/
def argmaxResult (band : List (List (Option ℚ))) (t : Affine)
    (disp : ℚ × ℚ → ℚ × ℚ) : Except AllMissingError ExtremumResult :=
  match argmaxCell band with
  | Except.error e => Except.error e
  | Except.ok a =>
      let p := disp (t.xy (a.2.1 : ℚ) (a.1 : ℚ))
      Except.ok ⟨a.2.2, a.1, a.2.1, p.1, p.2⟩

/-- Band cell access: the sample at `(r, c)`, `none` when the index is
out of the grid or the stored sample is non-finite. -/
def getCell (band : List (List (Option ℚ))) (r c : ℕ) : Option ℚ :=
  (band.get? r).bind (fun row => (row.get? c).bind id)

/-- Strict row-major order on cells: row first, then column. -/
def rmLt (a b : Cell) : Prop :=
  a.1 < b.1 ∨ (a.1 = b.1 ∧ a.2.1 < b.2.1)

lemma mem_finiteRow {r0 : ℕ} {row : List (Option ℚ)} {a : Cell} : ∀ c0 : ℕ,
    a ∈ finiteRow r0 c0 row →
    a.1 = r0 ∧ c0 ≤ a.2.1 ∧ row.get? (a.2.1 - c0) = some (some a.2.2) := by
  induction row with
  | nil => intro c0 h; cases h
  | cons w vs ih =>
      intro c0 h
      cases w with
      | none =>
          obtain ⟨h1, h2, h3⟩ := ih (c0 + 1) h
          refine ⟨h1, by omega, ?_⟩
          have hk : a.2.1 - c0 = (a.2.1 - (c0 + 1)) + 1 := by omega
          rw [hk, List.get?_cons_succ]
          exact h3
      | some v =>
          rcases List.mem_cons.mp h with heq | hmem
          · subst heq
            exact ⟨rfl, le_refl _, by simp⟩
          · obtain ⟨h1, h2, h3⟩ := ih (c0 + 1) hmem
            refine ⟨h1, by omega, ?_⟩
            have hk : a.2.1 - c0 = (a.2.1 - (c0 + 1)) + 1 := by omega
            rw [hk, List.get?_cons_succ]
            exact h3

lemma finiteRow_mem {row : List (Option ℚ)} {v : ℚ} : ∀ r0 c0 j : ℕ,
    row.get? j = some (some v) → (r0, c0 + j, v) ∈ finiteRow r0 c0 row := by
  induction row with
  | nil => intro r0 c0 j h; cases h
  | cons w vs ih =>
      intro r0 c0 j h
      cases j with
      | zero =>
          rw [List.get?_cons_zero] at h
          cases h
          exact List.mem_cons_self _ _
      | succ k =>
          rw [List.get?_cons_succ] at h
          cases w with
          | none =>
              have h5 := ih r0 (c0 + 1) k h
              have hc : c0 + 1 + k = c0 + (k + 1) := by omega
              rw [hc] at h5
              exact h5
          | some w0 =>
              have h5 := ih r0 (c0 + 1) k h
              have hc : c0 + 1 + k = c0 + (k + 1) := by omega
              rw [hc] at h5
              exact List.mem_cons_of_mem _ h5

lemma mem_finiteCellsFrom {rows : List (List (Option ℚ))} {a : Cell} :
    ∀ r0 : ℕ, a ∈ finiteCellsFrom r0 rows →
    r0 ≤ a.1 ∧ ∃ row, rows.get? (a.1 - r0) = some row ∧
      row.get? a.2.1 = some (some a.2.2) := by
  induction rows with
  | nil => intro r0 h; cases h
  | cons row rows ih =>
      intro r0 h
      rcases List.mem_append.mp h with hl | hr
      · obtain ⟨h1, _, h3⟩ := mem_finiteRow _ hl
        refine ⟨le_of_eq h1.symm, row, ?_, by simpa using h3⟩
        rw [h1, Nat.sub_self, List.get?_cons_zero]
      · obtain ⟨h1, row1, h2, h3⟩ := ih (r0 + 1) hr
        refine ⟨by omega, row1, ?_, h3⟩
        have hk : a.1 - r0 = (a.1 - (r0 + 1)) + 1 := by omega
        rw [hk, List.get?_cons_succ]
        exact h2

lemma finiteCellsFrom_mem {rows : List (List (Option ℚ))}
    {row : List (Option ℚ)} {v : ℚ} {j : ℕ} : ∀ r0 i : ℕ,
    rows.get? i = some row → row.get? j = some (some v) →
    (r0 + i, j, v) ∈ finiteCellsFrom r0 rows := by
  induction rows with
  | nil => intro r0 i hrow hv; cases hrow
  | cons row0 rows ih =>
      intro r0 i hrow hv
      cases i with
      | zero =>
          have hr : row0 = row := by simpa using hrow
          subst hr
          have h1 : (r0, j, v) ∈ finiteRow r0 0 row0 := by
            simpa using finiteRow_mem r0 0 j hv
          have h2 : (r0, j, v) ∈ finiteCellsFrom r0 (row0 :: rows) :=
            List.mem_append.mpr (Or.inl h1)
          simpa using h2
      | succ k =>
          rw [List.get?_cons_succ] at hrow
          have h5 := ih (r0 + 1) k hrow hv
          have hc : r0 + 1 + k = r0 + (k + 1) := by omega
          rw [hc] at h5
          exact List.mem_append.mpr (Or.inr h5)

lemma mem_finiteCells_iff {band : List (List (Option ℚ))} {a : Cell} :
    a ∈ finiteCells band ↔ getCell band a.1 a.2.1 = some a.2.2 := by
  constructor
  · intro h
    obtain ⟨_, row, h2, h3⟩ := mem_finiteCellsFrom 0 h
    rw [Nat.sub_zero] at h2
    simp only [getCell, Option.bind_eq_some, id_eq]
    exact ⟨row, h2, some a.2.2, h3, rfl⟩
  · intro h
    simp only [getCell, Option.bind_eq_some, id_eq] at h
    obtain ⟨row, h1, w, hw1, hw2⟩ := h
    subst hw2
    have h9 := finiteCellsFrom_mem 0 _ h1 hw1
    have h0 : 0 + a.1 = a.1 := Nat.zero_add a.1
    rw [h0] at h9
    exact h9

lemma pairwise_finiteRow (r0 : ℕ) (row : List (Option ℚ)) : ∀ c0 : ℕ,
    List.Pairwise rmLt (finiteRow r0 c0 row) := by
  induction row with
  | nil => intro c0; exact List.Pairwise.nil
  | cons w vs ih =>
      intro c0
      cases w with
      | none => exact ih (c0 + 1)
      | some v =>
          refine List.Pairwise.cons ?_ (ih (c0 + 1))
          intro b hb
          obtain ⟨h1, h2, _⟩ := mem_finiteRow _ hb
          exact Or.inr ⟨h1.symm, (by omega : c0 < b.2.1)⟩

lemma pairwise_finiteCellsFrom (rows : List (List (Option ℚ))) : ∀ r0 : ℕ,
    List.Pairwise rmLt (finiteCellsFrom r0 rows) := by
  induction rows with
  | nil => intro r0; exact List.Pairwise.nil
  | cons row rows ih =>
      intro r0
      refine List.pairwise_append.mpr ⟨pairwise_finiteRow r0 row 0, ih (r0 + 1), ?_⟩
      intro a ha b hb
      obtain ⟨ha1, _, _⟩ := mem_finiteRow _ ha
      obtain ⟨hb1, _⟩ := mem_finiteCellsFrom _ hb
      exact Or.inl (by omega)

lemma pickMax_cons (x y : Cell) (ys : List Cell) :
    pickMax x (y :: ys) = pickMax (pmStep x y) ys := rfl

lemma pickMax_split (ys : List Cell) : ∀ x : Cell, ∃ l1 l2,
    x :: ys = l1 ++ pickMax x ys :: l2 ∧
    (∀ a ∈ l1, a.2.2 < (pickMax x ys).2.2) ∧
    (∀ a ∈ l2, a.2.2 ≤ (pickMax x ys).2.2) := by
  induction ys with
  | nil =>
      intro x
      exact ⟨[], [], rfl, by simp, by simp⟩
  | cons y ys ih =>
      intro x
      rw [pickMax_cons]
      by_cases hxy : x.2.2 < y.2.2
      · have hstep : pmStep x y = y := by simp [pmStep, hxy]
        rw [hstep]
        obtain ⟨l1, l2, hsplit, h1, h2⟩ := ih y
        have hxm : x.2.2 < (pickMax y ys).2.2 := by
          cases l1 with
          | nil =>
              have : y = pickMax y ys := by
                have := hsplit
                simp only [List.nil_append] at this
                exact (List.cons.injEq _ _ _ _).mp this |>.1
              rw [← this]
              exact hxy
          | cons a l1t =>
              have ha : a = y := by
                have := hsplit
                simp only [List.cons_append] at this
                exact ((List.cons.injEq _ _ _ _).mp this).1.symm
              have hy1 : y ∈ a :: l1t := by rw [ha]; exact List.mem_cons_self _ _
              exact lt_trans hxy (h1 y hy1)
        refine ⟨x :: l1, l2, ?_, ?_, h2⟩
        · rw [List.cons_append, ← hsplit]
        · intro a ha
          rcases List.mem_cons.mp ha with rfl | hmem
          · exact hxm
          · exact h1 a hmem
      · have hyx : y.2.2 ≤ x.2.2 := le_of_not_lt hxy
        have hstep : pmStep x y = x := by simp [pmStep, hxy]
        rw [hstep]
        obtain ⟨l1, l2, hsplit, h1, h2⟩ := ih x
        cases l1 with
        | nil =>
            have hm : x = pickMax x ys ∧ ys = l2 := by
              have := hsplit
              simp only [List.nil_append] at this
              exact ⟨((List.cons.injEq _ _ _ _).mp this).1,
                     ((List.cons.injEq _ _ _ _).mp this).2⟩
            refine ⟨[], y :: ys, ?_, by simp, ?_⟩
            · simp [← hm.1]
            · intro a ha
              rcases List.mem_cons.mp ha with rfl | hmem
              · rw [← hm.1]; exact hyx
              · exact h2 a (hm.2 ▸ hmem)
        | cons a l1t =>
            have hax : a = x ∧ ys = l1t ++ pickMax x ys :: l2 := by
              have := hsplit
              simp only [List.cons_append] at this
              exact ⟨((List.cons.injEq _ _ _ _).mp this).1.symm,
                     ((List.cons.injEq _ _ _ _).mp this).2⟩
            have hxm : x.2.2 < (pickMax x ys).2.2 := by
              have : x ∈ a :: l1t := by rw [hax.1]; exact List.mem_cons_self _ _
              exact h1 x this
            refine ⟨x :: y :: l1t, l2, ?_, ?_, h2⟩
            · simp only [List.cons_append]
              rw [← hax.2]
            · intro b hb
              rcases List.mem_cons.mp hb with rfl | hb2
              · exact hxm
              · rcases List.mem_cons.mp hb2 with rfl | hb3
                · exact lt_of_le_of_lt hyx hxm
                · refine h1 b ?_
                  rw [hax.1]
                  exact List.mem_cons_of_mem _ hb3

lemma pickMax_le (ys : List Cell) (x : Cell) :
    ∀ a ∈ x :: ys, a.2.2 ≤ (pickMax x ys).2.2 := by
  obtain ⟨l1, l2, hsplit, h1, h2⟩ := pickMax_split ys x
  intro a ha
  rw [hsplit] at ha
  rcases List.mem_append.mp ha with hl | hr
  · exact le_of_lt (h1 a hl)
  · rcases List.mem_cons.mp hr with rfl | hm
    · exact le_refl _
    · exact h2 a hm

/-- C4: the grid argmax scans all finite cells and resolves ties by the
lowest row-major index: a successful `argmaxResult` names a finite cell
of the band holding its value, every finite cell's value is at most that
value, every finite cell strictly earlier in row-major order (row first,
then column) holds a strictly smaller value, and the reported point is
the display reprojection of the forward affine image of the winning
pixel. -/
theorem argmax_rowMajor_first (band : List (List (Option ℚ))) (t : Affine)
    (disp : ℚ × ℚ → ℚ × ℚ) (res : ExtremumResult)
    (hres : argmaxResult band t disp = Except.ok res) :
    getCell band res.row res.col = some res.value ∧
    (∀ r c v, getCell band r c = some v → v ≤ res.value) ∧
    (∀ r c v, getCell band r c = some v →
      (r < res.row ∨ (r = res.row ∧ c < res.col)) → v < res.value) ∧
    (res.x, res.y) = disp (t.xy (res.col : ℚ) (res.row : ℚ)) := by
  unfold argmaxResult argmaxCell at hres
  cases hfc : finiteCells band with
  | nil =>
      rw [hfc] at hres
      exact Except.noConfusion hres
  | cons x xs =>
      rw [hfc] at hres
      have hres2 : Except.ok (ExtremumResult.mk (pickMax x xs).2.2
          (pickMax x xs).1 (pickMax x xs).2.1
          (disp (t.xy ((pickMax x xs).2.1 : ℚ) ((pickMax x xs).1 : ℚ))).1
          (disp (t.xy ((pickMax x xs).2.1 : ℚ) ((pickMax x xs).1 : ℚ))).2)
          = Except.ok res := hres
      injection hres2 with hinj
      have hrow : res.row = (pickMax x xs).1 := by rw [← hinj]
      have hcol : res.col = (pickMax x xs).2.1 := by rw [← hinj]
      have hval : res.value = (pickMax x xs).2.2 := by rw [← hinj]
      have hx : res.x =
          (disp (t.xy ((pickMax x xs).2.1 : ℚ) ((pickMax x xs).1 : ℚ))).1 := by
        rw [← hinj]
      have hy : res.y =
          (disp (t.xy ((pickMax x xs).2.1 : ℚ) ((pickMax x xs).1 : ℚ))).2 := by
        rw [← hinj]
      rw [hrow, hcol, hval, hx, hy]
      obtain ⟨l1, l2, hsplit, h1, h2⟩ := pickMax_split xs x
      have hfc2 : finiteCells band = l1 ++ pickMax x xs :: l2 := by
        rw [hfc, hsplit]
      have hmem : pickMax x xs ∈ finiteCells band := by
        rw [hfc2]
        exact List.mem_append.mpr (Or.inr (List.mem_cons_self _ _))
      refine ⟨mem_finiteCells_iff.mp hmem, ?_, ?_, Prod.mk.eta⟩
      · intro r c v hv
        have hmem2 : ((r, c, v) : Cell) ∈ finiteCells band :=
          mem_finiteCells_iff.mpr hv
        rw [hfc] at hmem2
        exact pickMax_le xs x (r, c, v) hmem2
      · intro r c v hv hlt
        have hmem2 : ((r, c, v) : Cell) ∈ finiteCells band :=
          mem_finiteCells_iff.mpr hv
        rw [hfc2] at hmem2
        rcases List.mem_append.mp hmem2 with hL | hR
        · exact h1 _ hL
        · exfalso
          rcases List.mem_cons.mp hR with heq | hL2
          · have hr : r = (pickMax x xs).1 := by rw [← heq]
            have hc : c = (pickMax x xs).2.1 := by rw [← heq]
            rcases hlt with h | ⟨h, hcc⟩ <;> omega
          · have hp : List.Pairwise rmLt (finiteCells band) :=
              pairwise_finiteCellsFrom band 0
            rw [hfc2] at hp
            have hp2 := (List.pairwise_append.mp hp).2.1
            have hmb := (List.pairwise_cons.mp hp2).1 _ hL2
            rcases hmb with hmb1 | ⟨hmbe, hmb2⟩
            · have h9 : (pickMax x xs).1 < r := hmb1
              rcases hlt with h | ⟨h, hcc⟩ <;> omega
            · have h9 : (pickMax x xs).1 = r := hmbe
              have h10 : (pickMax x xs).2.1 < c := hmb2
              rcases hlt with h | ⟨h, hcc⟩ <;> omega

lemma finiteRow_eq_nil_iff (r0 : ℕ) (row : List (Option ℚ)) : ∀ c0 : ℕ,
    finiteRow r0 c0 row = [] ↔ ∀ v ∈ row, v = none := by
  induction row with
  | nil => intro c0; simp [finiteRow]
  | cons w vs ih =>
      intro c0
      cases w with
      | none => simpa [finiteRow] using ih (c0 + 1)
      | some v => simp [finiteRow]

lemma finiteCellsFrom_eq_nil_iff (rows : List (List (Option ℚ))) : ∀ r0 : ℕ,
    finiteCellsFrom r0 rows = [] ↔ ∀ row ∈ rows, ∀ v ∈ row, v = none := by
  induction rows with
  | nil => intro r0; simp [finiteCellsFrom]
  | cons row rows ih =>
      intro r0
      simp only [finiteCellsFrom, List.append_eq_nil, List.mem_cons]
      rw [finiteRow_eq_nil_iff r0 row 0, ih (r0 + 1)]
      constructor
      · rintro ⟨ha, hb⟩ row1 hrow1
        rcases hrow1 with rfl | hm
        · exact ha
        · exact hb row1 hm
      · intro h
        exact ⟨h row (Or.inl rfl), fun row1 hm => h row1 (Or.inr hm)⟩

/-- C5: the grid argmax fails with `AllMissingError` exactly when every
cell of the band is non-finite (missing); in every other case it
returns a result, and it never crashes (it is a total function). -/
theorem argmax_all_missing (band : List (List (Option ℚ))) (t : Affine)
    (disp : ℚ × ℚ → ℚ × ℚ) :
    argmaxResult band t disp = Except.error AllMissingError.allMissing ↔
    ∀ row ∈ band, ∀ v ∈ row, v = none := by
  have hiff : finiteCells band = [] ↔ ∀ row ∈ band, ∀ v ∈ row, v = none :=
    finiteCellsFrom_eq_nil_iff band 0
  rw [← hiff]
  constructor
  · intro h
    cases hfc : finiteCells band with
    | nil => rfl
    | cons x xs =>
        unfold argmaxResult argmaxCell at h
        rw [hfc] at h
        exact absurd h (by exact fun hh => Except.noConfusion hh)
  · intro h
    unfold argmaxResult argmaxCell
    rw [h]

/-- The 2 by 2 scenario band `[[1, 5], [5, 2]]`, all values finite. -/
def bandC4 : List (List (Option ℚ)) := [[some 1, some 5], [some 5, some 2]]

/-- The scenario affine: pixel `(0,0)` maps to `(0,2)` and `(2,2)` to
`(2,0)` — `x = col`, `y = 2 - row`. -/
def affC4 : Affine := { a := 1, b := 0, c := 0, d := 0, e := -1, f := 2 }

/-- C4 witness: on the scenario grid (display CRS identical to native,
so the reprojection is the identity) argmax returns value `5` at
row `0`, col `1` — the first of the two tied cells in row-major order,
not row 1, col 0 — and the theorem's conclusions hold there. -/
theorem argmax_rowMajor_first_witness :
    argmaxResult bandC4 affC4 id = Except.ok ⟨5, 0, 1, 1, 2⟩ ∧
    getCell bandC4 0 1 = some 5 ∧
    (∀ r c v, getCell bandC4 r c = some v → v ≤ (5 : ℚ)) ∧
    (∀ r c v, getCell bandC4 r c = some v →
      (r < 0 ∨ (r = 0 ∧ c < 1)) → v < (5 : ℚ)) := by
  have hok : argmaxResult bandC4 affC4 id = Except.ok ⟨5, 0, 1, 1, 2⟩ := by
    norm_num [argmaxResult, argmaxCell, finiteCells, finiteCellsFrom,
      finiteRow, pickMax, pmStep, Affine.xy, bandC4, affC4]
  have h := argmax_rowMajor_first bandC4 affC4 id ⟨5, 0, 1, 1, 2⟩ hok
  exact ⟨hok, h.1, h.2.1, h.2.2.1⟩

/-- A 2 by 2 band with no finite cell. -/
def bandC5 : List (List (Option ℚ)) := [[none, none], [none, none]]

/-- C5 witness: on the all-missing band, argmax returns the declared
`AllMissingError`. -/
theorem argmax_all_missing_witness :
    argmaxResult bandC5 affC4 id = Except.error AllMissingError.allMissing :=
  (argmax_all_missing bandC5 affC4 id).mpr (by decide)

/-- The result dataframe's column labels (lines 155-159): pandas keeps
the dict insertion order `latitude (EPSG:4326)`, `longitude (EPSG:4326)`,
`value`. -/
def csvHeaderCells : List String :=
  ["latitude (EPSG:4326)", "longitude (EPSG:4326)", "value"]

/-- One data row's cells, rendered by a caller-supplied numeric
formatter `fmt`: an absent value (`None` becomes NaN in the dataframe)
is written by pandas `to_csv` as the empty field. -/
def csvCells (fmt : ℚ → String) (rec : SampleRecord) : List String :=
  [fmt rec.latitude, fmt rec.longitude,
   match rec.value with
   | none => ""
   | some v => fmt v]

/-- One serialized CSV line: comma-joined cells plus a newline. -/
def csvLine (cells : List String) : String :=
  String.intercalate "," cells ++ "\n"

/-- `df_result.to_csv(index=False)` (line 183): the header line built
from the column labels, then one line per record, in list order. -/
def toCsv (fmt : ℚ → String) (recs : List SampleRecord) : String :=
  csvLine csvHeaderCells ++
    String.join (recs.map (fun r => csvLine (csvCells fmt r)))

/-- C10 counterexample: already on the empty batch the exported CSV is
the single header line `latitude (EPSG:4326),longitude (EPSG:4326),value`,
not the claimed `latitude,longitude,value`. -/
theorem toCsv_header_not_plain :
    toCsv (fun _ => "") [] =
      "latitude (EPSG:4326),longitude (EPSG:4326),value\n" ∧
    toCsv (fun _ => "") [] ≠ "latitude,longitude,value\n" := by
  constructor
  · decide
  · decide

/-- C10 amended: the exported CSV's header is
`latitude (EPSG:4326),longitude (EPSG:4326),value`; below it there is
exactly one row per record, in record (that is, input) order, and the
value column of a row is the empty field exactly when the record's value
is absent. -/
theorem toCsv_shape (fmt : ℚ → String) (recs : List SampleRecord) :
    toCsv fmt recs =
      "latitude (EPSG:4326),longitude (EPSG:4326),value\n" ++
        String.join (recs.map (fun r => csvLine (csvCells fmt r))) ∧
    (recs.map (fun r => csvLine (csvCells fmt r))).length = recs.length ∧
    (∀ r : SampleRecord, r.value = none →
      csvCells fmt r = [fmt r.latitude, fmt r.longitude, ""]) ∧
    (∀ (r : SampleRecord) (v : ℚ), r.value = some v →
      csvCells fmt r = [fmt r.latitude, fmt r.longitude, fmt v]) := by
  refine ⟨?_, by simp, ?_, ?_⟩
  · have hh : csvLine csvHeaderCells =
        "latitude (EPSG:4326),longitude (EPSG:4326),value\n" := by decide
    unfold toCsv
    rw [hh]
  · intro r hr
    unfold csvCells
    rw [hr]
  · intro r v hr
    unfold csvCells
    rw [hr]

/-- C10 witness: a one-record batch with an absent value serializes to
the header line plus one row whose value field is empty. -/
theorem toCsv_shape_witness :
    toCsv (fun _ => "x") [⟨1, 2, none⟩] =
      "latitude (EPSG:4326),longitude (EPSG:4326),value\n" ++ "x,x,\n" ∧
    csvCells (fun _ => "x") ⟨1, 2, none⟩ = ["x", "x", ""] := by
  have h := toCsv_shape (fun _ => "x") [⟨1, 2, none⟩]
  refine ⟨?_, h.2.2.1 ⟨1, 2, none⟩ rfl⟩
  rw [h.1]
  decide
